import Mathlib

/-!
Verification of the card composition layout engine of `card_generator.py`
(class `CardGenerator`).  Text measurement (PIL `draw.textbbox`) is
abstracted as an arbitrary measurement function; pixel rasters are
functions from integer coordinates to RGB colors; Python float arithmetic
in the image-scaling path is modelled as IEEE binary64
(round-to-nearest, ties-to-even) over exact integer fractions.
-/

namespace CardGen

/-- Split a character list at every character satisfying `p`, keeping
(possibly empty) pieces, as `String.split` does. -/
def splitChars (p : Char → Bool) : List Char → List (List Char)
  | [] => [[]]
  | c :: cs =>
    match splitChars p cs with
    | [] => [[]]
    | g :: gs => if p c then [] :: g :: gs else (c :: g) :: gs

/-- Words of the input text: Python `text.split()` splits on whitespace
runs and drops empty pieces (`_wrap_text_to_fit`, line 326). -/
def wordsOf (text : String) : List String :=
  ((splitChars Char.isWhitespace text.data).map String.mk).filter (fun w => w ≠ "")

/-- The word-accumulation loop of `_wrap_text_to_fit` (lines 330-343).
`meas` abstracts the measured pixel width `draw.textbbox(...)[2] - [0]`
of a string at the font in use.  `cur` is `current_line`; the produced
list is `lines` (with the final non-empty `current_line` flushed). -/
def wrapGo (meas : String → ℕ) (maxWidth : ℕ) : List String → String → List String
  | [], cur => if cur = "" then [] else [cur]
  | w :: ws, cur =>
    let testLine := if cur = "" then w else cur ++ " " ++ w
    if meas testLine ≤ maxWidth then
      wrapGo meas maxWidth ws testLine
    else
      if cur = "" then wrapGo meas maxWidth ws w
      else cur :: wrapGo meas maxWidth ws w

/-- `_wrap_text_to_fit(text, max_width, font, draw)` (lines 323-345). -/
def wrapTextToFit (meas : String → ℕ) (maxWidth : ℕ) (text : String) : List String :=
  wrapGo meas maxWidth (wordsOf text) ""

theorem wordsOf_ne_empty (text : String) : ∀ w ∈ wordsOf text, w ≠ "" := by
  intro w hw
  simp only [wordsOf, List.mem_filter, decide_eq_true_eq] at hw
  exact hw.2

theorem append_word_ne_empty (cur w : String) : cur ++ " " ++ w ≠ "" := by
  intro h
  have := congrArg String.length h
  simp [String.length_append] at this
  exact absurd this.1.2 (by decide)

theorem wrapGo_nil (meas : String → ℕ) (maxWidth : ℕ) (cur : String) :
    wrapGo meas maxWidth [] cur = if cur = "" then [] else [cur] := rfl

theorem wrapGo_cons_empty (meas : String → ℕ) (maxWidth : ℕ) (w : String) (ws : List String) :
    wrapGo meas maxWidth (w :: ws) "" = wrapGo meas maxWidth ws w := by
  show (let testLine := if "" = "" then w else "" ++ " " ++ w
    if meas testLine ≤ maxWidth then wrapGo meas maxWidth ws testLine
    else if "" = "" then wrapGo meas maxWidth ws w
    else "" :: wrapGo meas maxWidth ws w) = wrapGo meas maxWidth ws w
  simp

theorem wrapGo_cons_ne (meas : String → ℕ) (maxWidth : ℕ) (w : String) (ws : List String)
    (cur : String) (hc : cur ≠ "") :
    wrapGo meas maxWidth (w :: ws) cur =
      if meas (cur ++ " " ++ w) ≤ maxWidth then wrapGo meas maxWidth ws (cur ++ " " ++ w)
      else cur :: wrapGo meas maxWidth ws w := by
  show (let testLine := if cur = "" then w else cur ++ " " ++ w
    if meas testLine ≤ maxWidth then wrapGo meas maxWidth ws testLine
    else if cur = "" then wrapGo meas maxWidth ws w
    else cur :: wrapGo meas maxWidth ws w) = _
  simp [hc]

theorem wrapGo_ne_nil (meas : String → ℕ) (maxWidth : ℕ) :
    ∀ (ws : List String) (cur : String), cur ≠ "" → wrapGo meas maxWidth ws cur ≠ [] := by
  intro ws
  induction ws with
  | nil =>
    intro cur hcur
    simp [wrapGo_nil, hcur]
  | cons w ws ih =>
    intro cur hcur
    rw [wrapGo_cons_ne meas maxWidth w ws cur hcur]
    split
    · exact ih _ (append_word_ne_empty cur w)
    · simp

theorem wrapGo_no_empty_line (meas : String → ℕ) (maxWidth : ℕ) :
    ∀ (ws : List String) (cur : String), ∀ l ∈ wrapGo meas maxWidth ws cur, l ≠ "" := by
  intro ws
  induction ws with
  | nil =>
    intro cur l hl
    rw [wrapGo_nil] at hl
    by_cases hc : cur = "" <;> simp [hc] at hl
    subst hl; exact hc
  | cons w ws ih =>
    intro cur l hl
    by_cases hc : cur = ""
    · subst hc
      rw [wrapGo_cons_empty] at hl
      exact ih _ l hl
    · rw [wrapGo_cons_ne meas maxWidth w ws cur hc] at hl
      split at hl
      · exact ih _ l hl
      · rcases List.mem_cons.mp hl with rfl | hl
        · exact hc
        · exact ih _ l hl

/-- Invariant-carrying form of the line-width bound: every flushed line
either fits, or is a single over-wide input word. -/
theorem wrapGo_width_bound (meas : String → ℕ) (maxWidth : ℕ) (allWords : List String) :
    ∀ (ws : List String) (cur : String), ws ⊆ allWords →
      (cur = "" ∨ meas cur ≤ maxWidth ∨ (maxWidth < meas cur ∧ cur ∈ allWords)) →
      ∀ l ∈ wrapGo meas maxWidth ws cur,
        meas l ≤ maxWidth ∨ (l ∈ allWords ∧ maxWidth < meas l) := by
  intro ws
  induction ws with
  | nil =>
    intro cur _ hcur l hl
    rw [wrapGo_nil] at hl
    by_cases hc : cur = "" <;> simp [hc] at hl
    subst hl
    rcases hcur with hc' | hle | ⟨hgt, hmem⟩
    · exact absurd hc' hc
    · exact Or.inl hle
    · exact Or.inr ⟨hmem, hgt⟩
  | cons w ws ih =>
    intro cur hsub hcur l hl
    have hwmem : w ∈ allWords := hsub (List.mem_cons_self w ws)
    have hsub' : ws ⊆ allWords := fun x hx => hsub (List.mem_cons_of_mem w hx)
    have hwinv : w = "" ∨ meas w ≤ maxWidth ∨ (maxWidth < meas w ∧ w ∈ allWords) := by
      rcases le_or_lt (meas w) maxWidth with h | h
      · exact Or.inr (Or.inl h)
      · exact Or.inr (Or.inr ⟨h, hwmem⟩)
    by_cases hc : cur = ""
    · subst hc
      rw [wrapGo_cons_empty] at hl
      exact ih _ hsub' hwinv l hl
    · rw [wrapGo_cons_ne meas maxWidth w ws cur hc] at hl
      split at hl
      · next hfits => exact ih _ hsub' (Or.inr (Or.inl hfits)) l hl
      · rcases List.mem_cons.mp hl with rfl | hl
        · rcases hcur with hc' | hle | ⟨hgt, hmem⟩
          · exact absurd hc' hc
          · exact Or.inl hle
          · exact Or.inr ⟨hmem, hgt⟩
        · exact ih _ hsub' hwinv l hl

/-- Joining a list of lines with single spaces (the spec-side operator of
the claims; not part of the source). -/
def joinSpace : List String → String
  | [] => ""
  | [l] => l
  | l :: l2 :: ls => l ++ " " ++ joinSpace (l2 :: ls)

theorem joinSpace_cons (l : String) (ls : List String) (h : ls ≠ []) :
    joinSpace (l :: ls) = l ++ " " ++ joinSpace ls := by
  cases ls with
  | nil => exact absurd rfl h
  | cons a as => rfl

theorem joinSpace_glue (a b : String) (ls : List String) :
    joinSpace ((a ++ " " ++ b) :: ls) = a ++ " " ++ joinSpace (b :: ls) := by
  cases ls with
  | nil => rfl
  | cons c cs =>
    rw [joinSpace_cons _ _ (by simp), joinSpace_cons b _ (by simp)]
    simp [String.append_assoc]

theorem wrapGo_join (meas : String → ℕ) (maxWidth : ℕ) :
    ∀ (ws : List String) (cur : String), (∀ w ∈ ws, w ≠ "") → cur ≠ "" →
      joinSpace (wrapGo meas maxWidth ws cur) = joinSpace (cur :: ws) := by
  intro ws
  induction ws with
  | nil =>
    intro cur _ hcur
    simp [wrapGo_nil, hcur]
  | cons w ws ih =>
    intro cur hws hcur
    have hw : w ≠ "" := hws w (List.mem_cons_self w ws)
    have hws' : ∀ x ∈ ws, x ≠ "" := fun x hx => hws x (List.mem_cons_of_mem w hx)
    rw [wrapGo_cons_ne meas maxWidth w ws cur hcur]
    split
    · rw [ih _ hws' (append_word_ne_empty cur w), joinSpace_glue,
        joinSpace_cons cur (w :: ws) (by simp)]
    · rw [joinSpace_cons cur _ (wrapGo_ne_nil meas maxWidth ws w hw),
        ih _ hws' hw, joinSpace_cons cur (w :: ws) (by simp)]

/-- C2: every line produced by the word wrapper fits the width budget,
except a line that is a single input word whose own measured width
exceeds the budget; empty input yields no lines. -/
theorem wrap_lines_fit (meas : String → ℕ) (maxWidth : ℕ) (text : String) :
    (∀ l ∈ wrapTextToFit meas maxWidth text,
        meas l ≤ maxWidth ∨ (l ∈ wordsOf text ∧ maxWidth < meas l))
    ∧ wrapTextToFit meas maxWidth "" = [] := by
  constructor
  · intro l hl
    exact wrapGo_width_bound meas maxWidth (wordsOf text) (wordsOf text) ""
      (fun x hx => hx) (Or.inl rfl) l hl
  · have h : wordsOf "" = [] := by decide
    unfold wrapTextToFit
    rw [h, wrapGo_nil]
    simp

/-- C10: joining the wrapper's lines with single spaces reconstructs the
whitespace-normalized input (its words joined by single spaces), and no
produced line is empty. -/
theorem wrap_preserves_words (meas : String → ℕ) (maxWidth : ℕ) (text : String) :
    joinSpace (wrapTextToFit meas maxWidth text) = joinSpace (wordsOf text)
    ∧ ∀ l ∈ wrapTextToFit meas maxWidth text, l ≠ "" := by
  refine ⟨?_, fun l hl => wrapGo_no_empty_line meas maxWidth _ "" l hl⟩
  unfold wrapTextToFit
  cases hws : wordsOf text with
  | nil => rw [wrapGo_nil]; simp
  | cons w ws =>
    have hne : ∀ x ∈ wordsOf text, x ≠ "" := wordsOf_ne_empty text
    rw [hws] at hne
    rw [wrapGo_cons_empty]
    exact wrapGo_join meas maxWidth ws w
      (fun x hx => hne x (List.mem_cons_of_mem w hx))
      (hne w (List.mem_cons_self w ws))

/-- `countDown hi n` is the length-`n` list `hi, hi - 2, hi - 4, …`. -/
def countDown : ℕ → ℕ → List ℕ
  | _, 0 => []
  | hi, n + 1 => hi :: countDown (hi - 2) n

/-- Python `range(hi, lo - 1, -2)`: the candidate font sizes scanned by
the fitters (`_draw_scaled_title` line 245, `_draw_wrapped_text`
line 294). -/
def descCandidates (hi lo : ℕ) : List ℕ :=
  if hi < lo then [] else countDown hi ((hi - lo) / 2 + 1)

theorem countDown_le : ∀ (n hi : ℕ), ∀ x ∈ countDown hi n, x ≤ hi := by
  intro n
  induction n with
  | zero => intro hi x hx; simp [countDown] at hx
  | succ n ih =>
    intro hi x hx
    rw [show countDown hi (n + 1) = hi :: countDown (hi - 2) n from rfl] at hx
    rcases List.mem_cons.mp hx with rfl | hx
    · exact le_refl x
    · exact le_trans (ih _ x hx) (Nat.sub_le hi 2)

theorem countDown_find_max (p : ℕ → Bool) :
    ∀ (n hi s : ℕ), (countDown hi n).find? p = some s →
      ∀ x ∈ countDown hi n, p x = true → x ≤ s := by
  intro n
  induction n with
  | zero => intro hi s h; simp [countDown] at h
  | succ n ih =>
    intro hi s h x hx hpx
    rw [show countDown hi (n + 1) = hi :: countDown (hi - 2) n from rfl] at h hx
    cases hph : p hi with
    | true =>
      rw [List.find?_cons_of_pos _ hph] at h
      have hs : s = hi := by injection h with h'; exact h'.symm
      subst hs
      rcases List.mem_cons.mp hx with rfl | hx
      · exact le_refl x
      · exact le_trans (countDown_le n _ x hx) (Nat.sub_le s 2)
    | false =>
      rw [List.find?_cons_of_neg _ (by simp [hph])] at h
      rcases List.mem_cons.mp hx with rfl | hx
      · rw [hpx] at hph; exact absurd hph (by simp)
      · exact ih _ s h x hx hpx

theorem descCandidates_find_max (p : ℕ → Bool) (hi lo s : ℕ)
    (h : (descCandidates hi lo).find? p = some s) :
    ∀ x ∈ descCandidates hi lo, p x = true → x ≤ s := by
  unfold descCandidates at h ⊢
  by_cases hlt : hi < lo
  · simp [hlt] at h
  · simp only [if_neg hlt] at h ⊢
    exact countDown_find_max p _ hi s h

/-- Fit test of `_draw_scaled_title` (lines 250-255): `bbox s` is the
measured `(width, height)` of the full title string at font size `s`. -/
def titleFits (bbox : ℕ → ℕ × ℕ) (maxWidth maxHeight : ℕ) (s : ℕ) : Bool :=
  (bbox s).1 ≤ maxWidth && (bbox s).2 ≤ maxHeight

/-- Font size at which `_draw_scaled_title` (lines 229-276) draws the
title: the first fitting size in `range(max_font_size, 11, -2)`, else
the floor 12 — the fallback font loaded at line 264. -/
def chosenTitleSize (bbox : ℕ → ℕ × ℕ) (maxWidth maxHeight maxFontSize : ℕ) : ℕ :=
  match (descCandidates maxFontSize 12).find? (titleFits bbox maxWidth maxHeight) with
  | some s => s
  | none => 12

/-- C1: the chosen title font size is the largest candidate in
`range(titleMaxFontSize, 11, -2)` whose measured bounding box fits the
title rectangle; if no candidate fits it is the floor 12. -/
theorem chosenTitleSize_spec (bbox : ℕ → ℕ × ℕ) (maxWidth maxHeight maxFontSize : ℕ) :
    (chosenTitleSize bbox maxWidth maxHeight maxFontSize ∈ descCandidates maxFontSize 12
      ∧ titleFits bbox maxWidth maxHeight
          (chosenTitleSize bbox maxWidth maxHeight maxFontSize) = true
      ∧ ∀ s ∈ descCandidates maxFontSize 12, titleFits bbox maxWidth maxHeight s = true →
          s ≤ chosenTitleSize bbox maxWidth maxHeight maxFontSize)
    ∨ ((∀ s ∈ descCandidates maxFontSize 12, titleFits bbox maxWidth maxHeight s = false)
      ∧ chosenTitleSize bbox maxWidth maxHeight maxFontSize = 12) := by
  unfold chosenTitleSize
  cases hfind : (descCandidates maxFontSize 12).find? (titleFits bbox maxWidth maxHeight) with
  | none =>
    right
    refine ⟨fun s hs => ?_, rfl⟩
    have := List.find?_eq_none.mp hfind s hs
    simpa using this
  | some s =>
    left
    exact ⟨List.mem_of_find?_eq_some hfind, List.find?_some hfind,
      descCandidates_find_max _ _ _ _ hfind⟩

/-- One wrap of the description at candidate font size `s`
(`_draw_wrapped_text` line 297): `meas s` is the width measurement with
the font loaded at size `s`. -/
def descWrapAt (meas : ℕ → String → ℕ) (maxWidth : ℕ) (text : String) (s : ℕ) : List String :=
  wrapTextToFit (meas s) maxWidth text

/-- Fit test of `_draw_wrapped_text` (lines 299-303): wrapped line count
times `font.size + 4` must not exceed the area height. -/
def descFits (meas : ℕ → String → ℕ) (maxWidth maxHeight : ℕ) (text : String) (s : ℕ) : Bool :=
  (descWrapAt meas maxWidth text s).length * (s + 4) ≤ maxHeight

/-- Font size whose wrapping `_draw_wrapped_text` (lines 278-321) draws:
the first fitting size in `range(description_max_font_size, 7, -2)`; if
none fits, the font passed in — `self.description_font`, loaded at size
`description_font_size` (line 62) — is kept (lines 290-291, 311). -/
def chosenDescSize (meas : ℕ → String → ℕ) (maxWidth maxHeight : ℕ) (text : String)
    (descMaxFontSize descFontSize : ℕ) : ℕ :=
  match (descCandidates descMaxFontSize 8).find? (descFits meas maxWidth maxHeight text) with
  | some s => s
  | none => descFontSize

/-- The line list `_draw_wrapped_text` computes at line 311. -/
def descLines (meas : ℕ → String → ℕ) (maxWidth maxHeight : ℕ) (text : String)
    (descMaxFontSize descFontSize : ℕ) : List String :=
  descWrapAt meas maxWidth text
    (chosenDescSize meas maxWidth maxHeight text descMaxFontSize descFontSize)

/-- The drawing loop of `_draw_wrapped_text` (lines 315-321): lines are
drawn top-aligned from `y1` and the loop breaks at the first line whose
bottom would cross `y2`. -/
def drawLoop (lineHeight y2 : ℕ) : ℕ → List String → List String
  | _, [] => []
  | yOffset, l :: ls =>
    if y2 < yOffset + lineHeight then []
    else l :: drawLoop lineHeight y2 (yOffset + lineHeight) ls

/-- The lines actually drawn by `_draw_wrapped_text` on the area
`(x1, y1, x2, y2)`. -/
def drawnDescLines (meas : ℕ → String → ℕ) (x1 y1 x2 y2 : ℕ) (text : String)
    (descMaxFontSize descFontSize : ℕ) : List String :=
  let maxWidth := x2 - x1
  let maxHeight := y2 - y1
  let s := chosenDescSize meas maxWidth maxHeight text descMaxFontSize descFontSize
  drawLoop (s + 4) y2 y1 (descWrapAt meas maxWidth text s)

/-- C5 counterexample: with width measure `s * length`, text `"aa bb"`,
area width 40 and height 0, max size 10 and configured default size 16,
no candidate size fits (candidates are 10 and 8), yet the wrapping used
is the one at size 16 — not the floor size 8's wrapping, contradicting
the claim's fallback clause. -/
theorem descFloorFallback_cex :
    descFits (fun s str => s * str.length) 40 0 "aa bb" 10 = false
    ∧ descFits (fun s str => s * str.length) 40 0 "aa bb" 8 = false
    ∧ descCandidates 10 8 = [10, 8]
    ∧ chosenDescSize (fun s str => s * str.length) 40 0 "aa bb" 10 16 = 16
    ∧ descLines (fun s str => s * str.length) 40 0 "aa bb" 10 16 = ["aa", "bb"]
    ∧ descWrapAt (fun s str => s * str.length) 40 "aa bb" 8 = ["aa bb"]
    ∧ (["aa", "bb"] : List String) ≠ ["aa bb"] := by
  decide

/-- C5 (amended): the description fitter accepts the first (hence, the
scan being strictly decreasing, the largest) candidate size in
`range(descriptionMaxFontSize, 7, -2)` whose wrapped line count times
`(fontSize + 4)` fits the rectangle height; if no candidate fits, the
text drawn is the wrapping computed at the configured default
description font size, not at the floor of the scan. -/
theorem chosenDescSize_spec (meas : ℕ → String → ℕ) (maxWidth maxHeight : ℕ) (text : String)
    (descMaxFontSize descFontSize : ℕ) :
    (chosenDescSize meas maxWidth maxHeight text descMaxFontSize descFontSize
        ∈ descCandidates descMaxFontSize 8
      ∧ descFits meas maxWidth maxHeight text
          (chosenDescSize meas maxWidth maxHeight text descMaxFontSize descFontSize) = true
      ∧ ∀ s ∈ descCandidates descMaxFontSize 8,
          descFits meas maxWidth maxHeight text s = true →
          s ≤ chosenDescSize meas maxWidth maxHeight text descMaxFontSize descFontSize)
    ∨ ((∀ s ∈ descCandidates descMaxFontSize 8,
          descFits meas maxWidth maxHeight text s = false)
      ∧ chosenDescSize meas maxWidth maxHeight text descMaxFontSize descFontSize = descFontSize
      ∧ descLines meas maxWidth maxHeight text descMaxFontSize descFontSize
          = descWrapAt meas maxWidth text descFontSize) := by
  unfold descLines chosenDescSize
  cases hfind : (descCandidates descMaxFontSize 8).find?
      (descFits meas maxWidth maxHeight text) with
  | none =>
    right
    refine ⟨fun s hs => ?_, rfl, rfl⟩
    have := List.find?_eq_none.mp hfind s hs
    simpa using this
  | some s =>
    left
    exact ⟨List.mem_of_find?_eq_some hfind, List.find?_some hfind,
      descCandidates_find_max _ _ _ _ hfind⟩

/-- Fuelled `⌊log₂ n⌋`: the number of halvings of `n` until it drops
below 2 (the fuel is instantiated with `n` itself, which always
suffices). -/
def natLog2F : ℕ → ℕ → ℕ
  | 0, _ => 0
  | fuel + 1, n => if n < 2 then 0 else natLog2F fuel (n / 2) + 1

/-- Fuelled smallest `k` with `n * 2 ^ k ≥ d`, for the binary exponent
of a positive rational below 1 (the fuel is instantiated with `d`,
which always suffices for `n ≥ 1`). -/
def natClog2F : ℕ → ℕ → ℕ → ℕ
  | 0, _, _ => 0
  | fuel + 1, n, d => if d ≤ n then 0 else natClog2F fuel (2 * n) d + 1

/-- The binary exponent of the positive rational `n / d`: the integer
`e` with `2 ^ e ≤ n / d < 2 ^ (e + 1)`. -/
def floorLog2 (n d : ℕ) : ℤ :=
  if d ≤ n then (natLog2F (n / d) (n / d) : ℤ) else -(natClog2F d n d : ℤ)

/-- Round the nonnegative rational `n / d` (`d > 0`) to the nearest IEEE
binary64 double, ties to even, returned as an exact fraction
`(numerator, power-of-two denominator)`: the significand is the rational
scaled into `[2 ^ 52, 2 ^ 53)` and rounded to an integer.  Exponent
overflow and subnormals are ignored — image dimensions keep every value
handled by `add_image_to_card` far inside the normal range. -/
def roundDouble (n d : ℕ) : ℕ × ℕ :=
  if n = 0 then (0, 1)
  else
    let e : ℤ := floorLog2 n d
    let sn : ℕ := if 0 ≤ 52 - e then n * 2 ^ (52 - e).toNat else n
    let sd : ℕ := if 0 ≤ 52 - e then d else d * 2 ^ (e - 52).toNat
    let lower : ℕ := sn / sd
    let rem : ℕ := sn % sd
    let m : ℕ :=
      if 2 * rem < sd then lower
      else if sd < 2 * rem then lower + 1
      else if lower % 2 = 0 then lower else lower + 1
    if 0 ≤ 52 - e then (m, 2 ^ (52 - e).toNat) else (m * 2 ^ (e - 52).toNat, 1)

/-- The larger of two nonnegative exact fractions (Python `max` on the
two computed doubles; floats compare exactly by value). -/
def maxFrac (x y : ℕ × ℕ) : ℕ × ℕ := if x.1 * y.2 ≤ y.1 * x.2 then y else x

/-- The scale factor of `add_image_to_card` (lines 377-382):
`max(target_width / img_width, target_height / img_height)` in IEEE
binary64 — the int→double conversions are exact (dimensions are far
below `2 ^ 53`) and each division is correctly rounded, so each operand
is `roundDouble` of the exact ratio. -/
def fillCropScale (targetW targetH imgW imgH : ℕ) : ℕ × ℕ :=
  maxFrac (roundDouble targetW imgW) (roundDouble targetH imgH)

/-- The resized width `int(img_width * scale)` (line 385): the
int→double conversion of `img_width` is exact, the product is correctly
rounded (`roundDouble` of the exact product), and `int()` truncates the
nonnegative result toward zero, i.e. takes the floor. -/
def fillCropNewW (targetW targetH imgW imgH : ℕ) : ℤ :=
  let scale := fillCropScale targetW targetH imgW imgH
  let p := roundDouble (imgW * scale.1) scale.2
  ((p.1 / p.2 : ℕ) : ℤ)

/-- The resized height `int(img_height * scale)` (line 386). -/
def fillCropNewH (targetW targetH imgW imgH : ℕ) : ℤ :=
  let scale := fillCropScale targetW targetH imgW imgH
  let p := roundDouble (imgH * scale.1) scale.2
  ((p.1 / p.2 : ℕ) : ℤ)

/-- The centered crop offset `(new_width - target_width) // 2`
(line 392); Python `//` is floor division. -/
def fillCropOffsetX (targetW targetH imgW imgH : ℕ) : ℤ :=
  (fillCropNewW targetW targetH imgW imgH - targetW).fdiv 2

/-- The centered crop offset `(new_height - target_height) // 2`
(line 393). -/
def fillCropOffsetY (targetW targetH imgW imgH : ℕ) : ℤ :=
  (fillCropNewH targetW targetH imgW imgH - targetH).fdiv 2

/-- Dimensions of the raster pasted at `(x1, y1)` (lines 396-403): the
crop to `target_width × target_height` happens only when the resized
image overflows the target in some axis; otherwise the resized image is
pasted as is. -/
def fillCropPastedDims (targetW targetH imgW imgH : ℕ) : ℤ × ℤ :=
  let nw := fillCropNewW targetW targetH imgW imgH
  let nh := fillCropNewH targetW targetH imgW imgH
  if (targetW : ℤ) < nw ∨ (targetH : ℤ) < nh then ((targetW : ℤ), (targetH : ℤ))
  else (nw, nh)

/-- C3 counterexample: the claim fails under the code's IEEE binary64
arithmetic.  A 4900×4900 source into a 100×100 target: the double
nearest `100/4900 = 1/49` rounds down, `4900 * float(1/49)` rounds to
`100 − 2⁻⁴⁶`, and `int()` truncates it to 99, so the resized image is
99×99; the crop condition `new > target` is false and the pasted raster
is 99×99 — not `(targetWidth, targetHeight)`, leaving a one-pixel band
of the target rectangle unfilled. -/
theorem fillCropFloat_cex :
    fillCropNewW 100 100 4900 4900 = 99
    ∧ fillCropNewH 100 100 4900 4900 = 99
    ∧ fillCropPastedDims 100 100 4900 4900 = ((99 : ℤ), (99 : ℤ))
    ∧ fillCropPastedDims 100 100 4900 4900 ≠ ((100 : ℤ), (100 : ℤ)) := by
  decide

/-- C3 (amended): whenever the float-computed resized dimensions
`int(img * scale)` are at least the target dimensions — exact arithmetic
always yields this, and double rounding can only miss it by the last
ulp — the fill-and-crop path pastes a raster of exactly the target
dimensions and the centered crop window lies inside the resized image,
covering the whole target rectangle; when rounding makes a resized
dimension fall below its target (see `fillCropFloat_cex`), the smaller
uncropped raster is pasted instead and the coverage guarantee fails. -/
theorem fillCrop_covers (targetW targetH imgW imgH : ℕ)
    (hw : (targetW : ℤ) ≤ fillCropNewW targetW targetH imgW imgH)
    (hh : (targetH : ℤ) ≤ fillCropNewH targetW targetH imgW imgH) :
    fillCropPastedDims targetW targetH imgW imgH = ((targetW : ℤ), (targetH : ℤ))
    ∧ 0 ≤ fillCropOffsetX targetW targetH imgW imgH
    ∧ fillCropOffsetX targetW targetH imgW imgH + targetW
        ≤ fillCropNewW targetW targetH imgW imgH
    ∧ 0 ≤ fillCropOffsetY targetW targetH imgW imgH
    ∧ fillCropOffsetY targetW targetH imgW imgH + targetH
        ≤ fillCropNewH targetW targetH imgW imgH := by
  have hfx : fillCropOffsetX targetW targetH imgW imgH
      = (fillCropNewW targetW targetH imgW imgH - targetW) / 2 :=
    Int.fdiv_eq_ediv _ (by norm_num)
  have hfy : fillCropOffsetY targetW targetH imgW imgH
      = (fillCropNewH targetW targetH imgW imgH - targetH) / 2 :=
    Int.fdiv_eq_ediv _ (by norm_num)
  refine ⟨?_, ?_, ?_, ?_, ?_⟩
  · unfold fillCropPastedDims
    dsimp only
    split
    · rfl
    · next hcond =>
      push_neg at hcond
      have h1 := le_antisymm hcond.1 hw
      have h2 := le_antisymm hcond.2 hh
      simp [h1, h2]
  · rw [hfx]; omega
  · rw [hfx]; omega
  · rw [hfy]; omega
  · rw [hfy]; omega

/-- Witness for `fillCrop_covers`: a 1×1 source filling a 3×3 target —
the scale 3 and the products are exact doubles, so the resized size is
exactly 3×3 and the hypotheses hold. -/
theorem fillCrop_covers_witness :
    fillCropPastedDims 3 3 1 1 = ((3 : ℤ), (3 : ℤ))
    ∧ 0 ≤ fillCropOffsetX 3 3 1 1 := by
  have h := fillCrop_covers 3 3 1 1 (by decide) (by decide)
  exact ⟨h.1, h.2.1⟩

/-- RGB color triple. -/
abbrev Color := ℕ × ℕ × ℕ

/-- Membership in a PIL `draw.rectangle([x1, y1, x2, y2])` fill: both
corners inclusive. -/
def inRect (x1 y1 x2 y2 : ℤ) (p : ℤ × ℤ) : Bool :=
  decide (x1 ≤ p.1) && decide (p.1 ≤ x2) && decide (y1 ≤ p.2) && decide (p.2 ≤ y2)

/-- Membership in a PIL `draw.ellipse([x1, y1, x2, y2])` fill, modelled
as the real ellipse inscribed in the box (cleared of denominators); the
rasterized boundary is approximated by this ideal region. -/
def inEllipse (x1 y1 x2 y2 : ℤ) (p : ℤ × ℤ) : Bool :=
  decide ((2 * p.1 - (x1 + x2)) ^ 2 * (y2 - y1) ^ 2
    + (2 * p.2 - (y1 + y2)) ^ 2 * (x2 - x1) ^ 2 ≤ (x2 - x1) ^ 2 * (y2 - y1) ^ 2)

/-- The radius actually used by `_draw_filled_rounded_rectangle`
(lines 175-200): `0` when the call degrades to a plain rectangle (radius
clamped to nonpositive, lines 178-181 and 184-190), otherwise the radius
clamped to half the rectangle's sides (lines 184-186). -/
def effectiveInnerRadius (x1 y1 x2 y2 radius : ℤ) : ℤ :=
  if radius ≤ 0 ∨ x2 ≤ x1 ∨ y2 ≤ y1 then 0
  else
    let maxRadius := min ((x2 - x1).fdiv 2) ((y2 - y1).fdiv 2)
    let r := min radius maxRadius
    if r ≤ 0 then 0 else r

/-- The region painted by `_draw_filled_rounded_rectangle(draw, x1, y1,
x2, y2, radius, fill)` (lines 175-200): nothing when the rectangle is
degenerate; a plain rectangle when the effective radius is 0; otherwise
the union of two strips (lines 193-194) and four corner discs
(lines 197-200). -/
def roundedCutout (x1 y1 x2 y2 radius : ℤ) (p : ℤ × ℤ) : Bool :=
  if x2 ≤ x1 ∨ y2 ≤ y1 then false
  else
    let r := effectiveInnerRadius x1 y1 x2 y2 radius
    if r ≤ 0 then inRect x1 y1 x2 y2 p
    else
      inRect (x1 + r) y1 (x2 - r) y2 p || inRect x1 (y1 + r) x2 (y2 - r) p
      || inEllipse x1 y1 (x1 + r * 2) (y1 + r * 2) p
      || inEllipse (x2 - r * 2) y1 x2 (y1 + r * 2) p
      || inEllipse x1 (y2 - r * 2) (x1 + r * 2) y2 p
      || inEllipse (x2 - r * 2) (y2 - r * 2) x2 y2 p

/-- The border mask built by `add_colored_border` (lines 147-162) at a
canvas pixel: the whole canvas is first filled opaque (line 152), then
the inner rounded rectangle — inset by `border_width`, radius
`min(border_corner_radius, border_width - 2)` (line 145) — is cut out,
but only when that inset rectangle is non-degenerate (line 160). -/
def borderMask (w h borderWidth cornerRadius : ℤ) (p : ℤ × ℤ) : Bool :=
  let innerX1 := borderWidth
  let innerY1 := borderWidth
  let innerX2 := w - 1 - borderWidth
  let innerY2 := h - 1 - borderWidth
  if innerX1 < innerX2 ∧ innerY1 < innerY2 then
    !(roundedCutout innerX1 innerY1 innerX2 innerY2
        (min cornerRadius (borderWidth - 2)) p)
  else true

/-- `add_colored_border` (lines 123-173) at a canvas pixel: the solid
border color is alpha-composited wherever the mask is opaque; elsewhere
the input image shows through (the RGBA/RGB round trip is the identity
on an opaque RGB image). -/
def addColoredBorder (w h borderWidth cornerRadius : ℤ) (color : Color)
    (img : ℤ × ℤ → Color) : ℤ × ℤ → Color :=
  fun p => if borderMask w h borderWidth cornerRadius p then color else img p

/-- C4 counterexample: on a 10×10 canvas with `border_width = 6` the
inset rectangle is degenerate (`inner_x2 = 3 ≤ 6 = inner_x1`), and the
claim requires a pixel-identical pass-through; instead the compositor
paints the whole canvas with the border color: on an all-black image the
pixel `(0, 0)` comes back red. -/
theorem borderDegenerate_cex :
    ((10 : ℤ) - 1 - 6 ≤ 6)
    ∧ addColoredBorder 10 10 6 15 (255, 0, 0) (fun _ => (0, 0, 0)) (0, 0) ≠ (0, 0, 0) := by
  decide

/-- C4 (amended): if `border_width ≤ 0` and the inset rectangle is
non-degenerate (true on any canvas of at least 2×2), the compositor is a
pixel-identical pass-through on the canvas; but when the inset rectangle
is degenerate, every canvas pixel is painted with the border color
instead. -/
theorem addColoredBorder_passthrough (w h borderWidth cornerRadius : ℤ) (color : Color)
    (img : ℤ × ℤ → Color) (p : ℤ × ℤ)
    (hpx0 : 0 ≤ p.1) (hpx1 : p.1 ≤ w - 1) (hpy0 : 0 ≤ p.2) (hpy1 : p.2 ≤ h - 1) :
    (borderWidth ≤ 0 → borderWidth < w - 1 - borderWidth →
        borderWidth < h - 1 - borderWidth →
        addColoredBorder w h borderWidth cornerRadius color img p = img p)
    ∧ (¬(borderWidth < w - 1 - borderWidth ∧ borderWidth < h - 1 - borderWidth) →
        addColoredBorder w h borderWidth cornerRadius color img p = color) := by
  constructor
  · intro hbw hx hy
    have hmask : borderMask w h borderWidth cornerRadius p = false := by
      unfold borderMask
      dsimp only
      rw [if_pos ⟨hx, hy⟩]
      have hrad : min cornerRadius (borderWidth - 2) ≤ 0 :=
        le_trans (min_le_right _ _) (by omega)
      have hcut : roundedCutout borderWidth borderWidth (w - 1 - borderWidth)
          (h - 1 - borderWidth) (min cornerRadius (borderWidth - 2)) p = true := by
        unfold roundedCutout
        rw [if_neg (by omega)]
        dsimp only
        rw [effectiveInnerRadius, if_pos (Or.inl hrad), if_pos (le_refl 0)]
        unfold inRect
        simp only [Bool.and_eq_true, decide_eq_true_eq]
        omega
      rw [hcut]
      rfl
    unfold addColoredBorder
    rw [hmask]
    rfl
  · intro hdeg
    have hmask : borderMask w h borderWidth cornerRadius p = true := by
      unfold borderMask
      dsimp only
      rw [if_neg hdeg]
    unfold addColoredBorder
    rw [hmask]
    rfl

/-- Witness for `addColoredBorder_passthrough`: a 4×4 canvas with
`border_width = 0` passes the all-black image through at `(1, 1)`. -/
theorem addColoredBorder_passthrough_witness :
    addColoredBorder 4 4 0 15 (255, 0, 0) (fun _ => (0, 0, 0)) (1, 1) = (0, 0, 0) := by
  exact (addColoredBorder_passthrough 4 4 0 15 (255, 0, 0) (fun _ => (0, 0, 0)) (1, 1)
    (by decide) (by decide) (by decide) (by decide)).1 (by decide) (by decide) (by decide)

/-- The effective radius used when `add_colored_border` cuts the inner
rounded rectangle (line 145 clamps to `border_width - 2`; lines 184-186
clamp to half the inset rectangle's sides). -/
def borderEffectiveRadius (w h borderWidth cornerRadius : ℤ) : ℤ :=
  effectiveInnerRadius borderWidth borderWidth (w - 1 - borderWidth) (h - 1 - borderWidth)
    (min cornerRadius (borderWidth - 2))

/-- C8: for `border_width ≥ 2` and any requested corner radius, when the
inset rectangle is non-degenerate (so the cut is performed), the
effective radius lies in `[0, border_width - 2]` and does not exceed
half the shorter side of the inset rectangle. -/
theorem borderEffectiveRadius_bounds (w h borderWidth cornerRadius : ℤ)
    (hbw : 2 ≤ borderWidth)
    (hx : borderWidth < w - 1 - borderWidth) (hy : borderWidth < h - 1 - borderWidth) :
    0 ≤ borderEffectiveRadius w h borderWidth cornerRadius
    ∧ borderEffectiveRadius w h borderWidth cornerRadius ≤ borderWidth - 2
    ∧ borderEffectiveRadius w h borderWidth cornerRadius
        ≤ min ((w - 1 - borderWidth) - borderWidth) ((h - 1 - borderWidth) - borderWidth) / 2 := by
  unfold borderEffectiveRadius effectiveInnerRadius
  have hw2 : (w - 1 - borderWidth - borderWidth).fdiv 2
      = (w - 1 - borderWidth - borderWidth) / 2 := Int.fdiv_eq_ediv _ (by norm_num)
  have hh2 : (h - 1 - borderWidth - borderWidth).fdiv 2
      = (h - 1 - borderWidth - borderWidth) / 2 := Int.fdiv_eq_ediv _ (by norm_num)
  split
  · next hcase =>
    refine ⟨le_refl 0, by omega, ?_⟩
    have h1 : 0 ≤ (w - 1 - borderWidth - borderWidth) / 2 := by omega
    have h2 : 0 ≤ (h - 1 - borderWidth - borderWidth) / 2 := by omega
    rcases le_total ((w - 1 - borderWidth) - borderWidth) ((h - 1 - borderWidth) - borderWidth)
      with hc | hc
    · rw [min_eq_left hc]; omega
    · rw [min_eq_right hc]; omega
  · next hcase =>
    dsimp only
    rw [hw2, hh2]
    push_neg at hcase
    split
    · next hr =>
      refine ⟨le_refl 0, by omega, ?_⟩
      rcases le_total ((w - 1 - borderWidth) - borderWidth) ((h - 1 - borderWidth) - borderWidth)
        with hc | hc
      · rw [min_eq_left hc]; omega
      · rw [min_eq_right hc]; omega
    · next hr =>
      push_neg at hr
      have hle1 : min (min cornerRadius (borderWidth - 2))
            (min ((w - 1 - borderWidth - borderWidth) / 2) ((h - 1 - borderWidth - borderWidth) / 2))
          ≤ borderWidth - 2 := le_trans (min_le_left _ _) (min_le_right _ _)
      refine ⟨le_of_lt hr, hle1, ?_⟩
      have hle2 := le_trans
        (min_le_right (min cornerRadius (borderWidth - 2))
          (min ((w - 1 - borderWidth - borderWidth) / 2) ((h - 1 - borderWidth - borderWidth) / 2)))
        (min_le_left _ ((h - 1 - borderWidth - borderWidth) / 2))
      have hle3 := le_trans
        (min_le_right (min cornerRadius (borderWidth - 2))
          (min ((w - 1 - borderWidth - borderWidth) / 2) ((h - 1 - borderWidth - borderWidth) / 2)))
        (min_le_right ((w - 1 - borderWidth - borderWidth) / 2) _)
      rcases le_total ((w - 1 - borderWidth) - borderWidth) ((h - 1 - borderWidth) - borderWidth)
        with hc | hc
      · rw [min_eq_left hc]; omega
      · rw [min_eq_right hc]; omega

/-- Witness for `borderEffectiveRadius_bounds`: a 20×20 canvas with
`border_width = 4` and requested radius 15 yields effective radius 2. -/
theorem borderEffectiveRadius_bounds_witness :
    borderEffectiveRadius 20 20 4 15 = 2
    ∧ 0 ≤ borderEffectiveRadius 20 20 4 15
    ∧ borderEffectiveRadius 20 20 4 15 ≤ 4 - 2 := by
  have h := borderEffectiveRadius_bounds 20 20 4 15 (by decide) (by decide) (by decide)
  exact ⟨by decide, h.1, h.2.1⟩

/-- Outcome of the image-path checks and `Image.open` in
`add_image_to_card` (lines 363-371): the path may be absent or empty,
name a missing file, fail to load/decode (the `except` at line 405), or
load successfully; a successful load carries the resized-and-cropped
raster (whose dimensions are `fillCropPastedDims`; the resampled pixel
content itself is opaque data here) ready to paste. -/
inductive ImageLoad
  | noPath
  | fileMissing
  | loadFailure
  | loaded (raster : ℤ × ℤ → Color) (rasterW rasterH : ℤ)

/-- `_create_fallback_image` (lines 410-455) at a pixel: the image area
is filled with the type color (line 435, corners `x1, y1, x2-1, y2-1`
inclusive) and the type letter is drawn in white on top (line 453);
`glyph` abstracts the set of pixels covered by the rendered letter. -/
def createFallbackImage (template : ℤ × ℤ → Color) (x1 y1 x2 y2 : ℤ)
    (typeColor : Color) (glyph : ℤ × ℤ → Bool) : ℤ × ℤ → Color :=
  fun p =>
    if glyph p then (255, 255, 255)
    else if inRect x1 y1 (x2 - 1) (y2 - 1) p then typeColor
    else template p

/-- `add_image_to_card` (lines 347-408): resulting pixels, paired with
whether a warning/error line was printed.  A missing file on a supplied
path goes to the fallback panel with a warning (lines 363-367), an
absent/empty path goes there silently, a failed load prints the error
and keeps the untouched template copy (lines 405-408), and a successful
load pastes the cropped raster at `(x1, y1)` (line 403). -/
def addImageToCard (load : ImageLoad) (template : ℤ × ℤ → Color) (x1 y1 x2 y2 : ℤ)
    (typeColor : Color) (glyph : ℤ × ℤ → Bool) : (ℤ × ℤ → Color) × Bool :=
  match load with
  | .noPath => (createFallbackImage template x1 y1 x2 y2 typeColor glyph, false)
  | .fileMissing => (createFallbackImage template x1 y1 x2 y2 typeColor glyph, true)
  | .loadFailure => (template, true)
  | .loaded raster rasterW rasterH =>
      ((fun p => if inRect x1 y1 (x1 + rasterW - 1) (y1 + rasterH - 1) p
          then raster (p.1 - x1, p.2 - y1) else template p), false)

/-- C6 counterexample: with an all-black template, image area
`(0, 0, 2, 2)` and red type color, a decode failure on an existing file
leaves pixel `(0, 0)` black, while the fallback path taken for a missing
file paints it red — the two paths do not produce the same result. -/
theorem imageLoadFailure_cex :
    (addImageToCard .loadFailure (fun _ => (0, 0, 0)) 0 0 2 2 (255, 0, 0)
        (fun _ => false)).1 (0, 0)
      ≠ (addImageToCard .fileMissing (fun _ => (0, 0, 0)) 0 0 2 2 (255, 0, 0)
        (fun _ => false)).1 (0, 0) := by
  decide

/-- C6 (amended): a failed load/decode of a supplied, existing image is
logged and non-fatal, but returns the template copy untouched; the
fallback panel (type-color fill plus glyph) is produced only for a
missing file or an absent/empty path. -/
theorem imageLoadFailure_spec (template : ℤ × ℤ → Color) (x1 y1 x2 y2 : ℤ)
    (typeColor : Color) (glyph : ℤ × ℤ → Bool) (p : ℤ × ℤ) :
    (addImageToCard .loadFailure template x1 y1 x2 y2 typeColor glyph).1 p = template p
    ∧ (addImageToCard .loadFailure template x1 y1 x2 y2 typeColor glyph).2 = true
    ∧ (addImageToCard .fileMissing template x1 y1 x2 y2 typeColor glyph).1
        = createFallbackImage template x1 y1 x2 y2 typeColor glyph
    ∧ (addImageToCard .noPath template x1 y1 x2 y2 typeColor glyph).1
        = createFallbackImage template x1 y1 x2 y2 typeColor glyph
    ∧ (glyph p = false → inRect x1 y1 (x2 - 1) (y2 - 1) p = true →
        createFallbackImage template x1 y1 x2 y2 typeColor glyph p = typeColor) := by
  refine ⟨rfl, rfl, rfl, rfl, fun hg hr => ?_⟩
  unfold createFallbackImage
  simp [hg, hr]

/-- Witness for `imageLoadFailure_spec` at a concrete template, area and
pixel. -/
theorem imageLoadFailure_spec_witness :
    (addImageToCard .loadFailure (fun _ => (9, 9, 9)) 0 0 2 2 (255, 0, 0)
        (fun _ => false)).1 (1, 1) = (9, 9, 9)
    ∧ createFallbackImage (fun _ => (9, 9, 9)) 0 0 2 2 (255, 0, 0)
        (fun _ => false) (1, 1) = (255, 0, 0) :=
  ⟨(imageLoadFailure_spec (fun _ => (9, 9, 9)) 0 0 2 2 (255, 0, 0)
      (fun _ => false) (1, 1)).1,
   (imageLoadFailure_spec (fun _ => (9, 9, 9)) 0 0 2 2 (255, 0, 0)
      (fun _ => false) (1, 1)).2.2.2.2 (by decide) (by decide)⟩

/-- Python `str.upper()` on a type code, modelled as per-character ASCII
uppercasing (`card_type.upper()`, line 138). -/
def upperStr (s : String) : String := String.mk (s.data.map Char.toUpper)

/-- `dict.get(key, default)` over the configured `type_colors` mapping
(built at lines 48-59), as an association-list lookup. -/
def lookupColor (typeColors : List (String × Color)) (key : String) : Option Color :=
  (typeColors.find? (fun kv => kv.1 == key)).map (fun kv => kv.2)

/-- The built-in fallback `type_colors` mapping (lines 54-59). -/
def defaultTypeColors : List (String × Color) :=
  [("D", (255, 0, 0)), ("V", (0, 255, 0)), ("P", (0, 0, 255)), ("?", (255, 255, 0))]

/-- Border color resolution in `add_colored_border` (line 138):
`self.type_colors.get(card_type.upper(), (128, 128, 128))`. -/
def borderColorFor (typeColors : List (String × Color)) (cardType : String) : Color :=
  (lookupColor typeColors (upperStr cardType)).getD (128, 128, 128)

/-- Panel color resolution in `_create_fallback_image` (line 432):
`self.type_colors.get(card_type, self.type_colors.get('?', (128, 128, 128)))`. -/
def fallbackPanelColorFor (typeColors : List (String × Color)) (cardType : String) : Color :=
  (lookupColor typeColors cardType).getD
    ((lookupColor typeColors "?").getD (128, 128, 128))

/-- C7 counterexample: with the built-in type-color map, unknown type
`"Z"` resolves the border color to the hardcoded gray `(128, 128, 128)`,
not to the `"?"` entry's yellow — while the fallback panel does use the
`"?"` entry, so the two disagree and the claim fails for the border. -/
theorem unknownTypeBorderColor_cex :
    borderColorFor defaultTypeColors "Z" = (128, 128, 128)
    ∧ fallbackPanelColorFor defaultTypeColors "Z" = (255, 255, 0)
    ∧ borderColorFor defaultTypeColors "Z" ≠ fallbackPanelColorFor defaultTypeColors "Z" := by
  decide

/-- C7 (amended): an unknown type code resolves without error, but the
two resolutions disagree: the border color falls back to the hardcoded
gray `(128, 128, 128)`, while the fallback-panel fill falls back to the
configured `"?"` entry (gray only if even `"?"` is absent). -/
theorem unknownType_resolution (typeColors : List (String × Color)) (t : String)
    (h1 : lookupColor typeColors (upperStr t) = none)
    (h2 : lookupColor typeColors t = none) :
    borderColorFor typeColors t = (128, 128, 128)
    ∧ fallbackPanelColorFor typeColors t
        = (lookupColor typeColors "?").getD (128, 128, 128) := by
  unfold borderColorFor fallbackPanelColorFor
  rw [h1, h2]
  exact ⟨rfl, rfl⟩

/-- Witness for `unknownType_resolution` at the built-in map and type
`"Z"`. -/
theorem unknownType_resolution_witness :
    borderColorFor defaultTypeColors "Z" = (128, 128, 128)
    ∧ fallbackPanelColorFor defaultTypeColors "Z"
        = (lookupColor defaultTypeColors "?").getD (128, 128, 128) :=
  unknownType_resolution defaultTypeColors "Z" (by decide) (by decide)

/-- Python `str.replace(target, "_")` for a single-character target
(each `.replace` call at lines 540-541 has a one-character pattern, so
it is a per-character substitution). -/
def replaceChar (target : Char) (s : String) : String :=
  String.mk (s.data.map (fun c => if c = target then '_' else c))

/-- The sanitization chain of line 540, applied left to right:
`? : / \ * " < > |`. -/
def sanitizeTitle (s : String) : String :=
  replaceChar '|' (replaceChar '>' (replaceChar '<' (replaceChar '"' (replaceChar '*'
    (replaceChar '\\' (replaceChar '/' (replaceChar ':' (replaceChar '?' s))))))))

/-- The full file-name sanitizer: line 540, then the
`safe_title.replace(' ', '_')` inside the f-string at line 541. -/
def safeFileTitle (s : String) : String := replaceChar ' ' (sanitizeTitle s)

/-- The output file name for the record at 0-based row index `index`
(line 541): `f"card_{index + 1}_{...}.png"`. -/
def outputFilename (index : ℕ) (title : String) : String :=
  "card_" ++ toString (index + 1) ++ "_" ++ safeFileTitle title ++ ".png"

/-- The forbidden character set named by the claim (the nine replaced
punctuation characters plus the space). -/
def forbiddenChars : List Char := ['?', ':', '/', '\\', '*', '<', '>', '|', '"', ' ']

/-- The claim's per-character substitution: forbidden characters become
`_`, all others pass through unchanged. -/
def sanitizeCharSpec (c : Char) : Char := if c ∈ forbiddenChars then '_' else c

theorem strEta (s : String) : String.mk s.data = s := by
  cases s
  rfl

theorem replaceChar_data (target : Char) (s : String) :
    (replaceChar target s).data = s.data.map (fun c => if c = target then '_' else c) := rfl

set_option maxHeartbeats 1000000 in
theorem safeFileTitle_data (s : String) :
    (safeFileTitle s).data = s.data.map sanitizeCharSpec := by
  simp only [safeFileTitle, sanitizeTitle, replaceChar_data, List.map_map]
  apply List.map_congr_left
  intro c _
  by_cases h : c ∈ forbiddenChars
  · simp only [forbiddenChars, List.mem_cons, List.not_mem_nil, or_false] at h
    rcases h with rfl | rfl | rfl | rfl | rfl | rfl | rfl | rfl | rfl | rfl <;> decide
  · have hne := h
    simp only [forbiddenChars, List.mem_cons, List.not_mem_nil, or_false, not_or] at hne
    obtain ⟨h1, h2, h3, h4, h5, h6, h7, h8, h9, h10⟩ := hne
    simp [sanitizeCharSpec, Function.comp_apply, h, h1, h2, h3, h4, h5, h6, h7, h8, h9, h10]

theorem safeFileTitle_eq_spec_map (s : String) :
    safeFileTitle s = String.mk (s.data.map sanitizeCharSpec) := by
  rw [← strEta (safeFileTitle s), safeFileTitle_data]

theorem sanitizeCharSpec_idem (c : Char) :
    sanitizeCharSpec (sanitizeCharSpec c) = sanitizeCharSpec c := by
  by_cases h : c ∈ forbiddenChars
  · have h1 : sanitizeCharSpec c = '_' := by unfold sanitizeCharSpec; rw [if_pos h]
    rw [h1]
    decide
  · have h1 : sanitizeCharSpec c = c := by unfold sanitizeCharSpec; rw [if_neg h]
    rw [h1]
    exact h1

theorem sanitizeCharSpec_not_forbidden (c : Char) :
    sanitizeCharSpec c ∉ forbiddenChars := by
  by_cases h : c ∈ forbiddenChars
  · rw [sanitizeCharSpec, if_pos h]
    decide
  · rw [sanitizeCharSpec, if_neg h]
    exact h

/-- C9: the file-name sanitizer substitutes `_` for exactly the nine
punctuation characters and the space, character by character, passing
all other characters through; it is idempotent; its output contains no
forbidden character and no space; and the file name for the record at
0-based row `index` is `card_{index+1}_{sanitizedTitle}.png`. -/
theorem sanitizer_spec (s : String) (index : ℕ) :
    safeFileTitle s = String.mk (s.data.map sanitizeCharSpec)
    ∧ safeFileTitle (safeFileTitle s) = safeFileTitle s
    ∧ (∀ c ∈ (safeFileTitle s).data, c ∉ forbiddenChars)
    ∧ outputFilename index s
        = "card_" ++ toString (index + 1) ++ "_" ++ safeFileTitle s ++ ".png" := by
  refine ⟨safeFileTitle_eq_spec_map s, ?_, ?_, rfl⟩
  · rw [safeFileTitle_eq_spec_map s, safeFileTitle_eq_spec_map (String.mk (s.data.map sanitizeCharSpec))]
    show String.mk ((s.data.map sanitizeCharSpec).map sanitizeCharSpec) = _
    rw [List.map_map]
    congr 1
    exact List.map_congr_left (fun c _ => sanitizeCharSpec_idem c)
  · intro c hc
    rw [safeFileTitle_eq_spec_map s] at hc
    have hc' : c ∈ s.data.map sanitizeCharSpec := hc
    rcases List.mem_map.mp hc' with ⟨a, _, rfl⟩
    exact sanitizeCharSpec_not_forbidden a

end CardGen
